import Mathlib

/-!
Verification development for an RSS 2.0 feed generator (src/rss.js).

Shallow embedding conventions:
* JavaScript strings are modelled as `List Char`.
* A value that may be `null`/`undefined` is modelled as an `Option`.
* A JavaScript `Date` is modelled by the parsed instant it denotes:
  `Option Int` (milliseconds since the Unix epoch; `none` stands for an
  invalid date, i.e. a `NaN` time value).  `Date.prototype.toUTCString`
  on an invalid date yields the string "Invalid Date".
* The implicit clock read performed by `generateRssFeed` (`new Date()`)
  is made explicit as an extra `now : Int` argument (a real clock always
  yields a valid instant).
* JavaScript numeric metadata fields (likes, retweets, replies) are
  modelled as `Int`.
-/

set_option maxRecDepth 40000

namespace Rss

/-- Truthiness of a JavaScript string-or-absent value: `null`, `undefined`
and the empty string are falsy; every other string is truthy. -/
def isTruthyStr : Option (List Char) → Bool
  | none => false
  | some s => !s.isEmpty

/-- The apostrophe character `'` (code point 39). -/
def aposChar : Char := Char.ofNat 39

/-- Replaces every occurrence of the character `c` by the string `r`,
modelling `String.prototype.replace` with a global single-character
pattern such as `/&/g`. -/
def repl (c : Char) (r : List Char) : List Char → List Char
  | [] => []
  | x :: xs => (if x = c then r else [x]) ++ repl c r xs

/-- Embedding of `escapeXml` from src/rss.js: falsy input gives the empty
string, otherwise the five reserved XML characters are replaced, in
source order `&`, `<`, `>`, `"`, `'` (the `&` replacement is innermost,
i.e. performed first). -/
def escapeXml (str : Option (List Char)) : List Char :=
  match str with
  | none => []
  | some s =>
    if s.isEmpty then []
    else
      repl aposChar "&apos;".data
        (repl '"' "&quot;".data
          (repl '>' "&gt;".data
            (repl '<' "&lt;".data
              (repl '&' "&amp;".data s))))

/-- The five reserved XML characters handled by `escapeXml`. -/
def specials : List Char := ['&', '<', '>', '"', aposChar]

/-- Per-character description of the net effect of `escapeXml`: each
reserved character becomes its entity, every other character is kept. -/
def charEsc (c : Char) : List Char :=
  if c = '&' then "&amp;".data
  else if c = '<' then "&lt;".data
  else if c = '>' then "&gt;".data
  else if c = '"' then "&quot;".data
  else if c = aposChar then "&apos;".data
  else [c]

/-- Whitespace in the sense of the regular expression class used by
src/rss.js (the JavaScript class matched by a backslash-s pattern):
tab through carriage return, space, no-break space, the Unicode space
separators, line and paragraph separators, narrow no-break space,
medium mathematical space, ideographic space and the byte order mark. -/
def isJsWs (c : Char) : Bool :=
  let n := c.toNat
  (9 ≤ n && n ≤ 13) || n == 32 || n == 160 || n == 5760 ||
  (8192 ≤ n && n ≤ 8202) || n == 8232 || n == 8233 ||
  n == 8239 || n == 8287 || n == 12288 || n == 65279

/-- Single pass over the string replacing each maximal run of whitespace
by one space, modelling the global whitespace-run-to-space replacement
in `getItemTitle`.  The Boolean records whether the scan is inside a
whitespace run whose single space has already been emitted. -/
def collapseGo : Bool → List Char → List Char
  | _, [] => []
  | inRun, c :: cs =>
    if isJsWs c then
      if inRun then collapseGo true cs else ' ' :: collapseGo true cs
    else
      c :: collapseGo false cs

/-- Replaces every run of whitespace by a single space. -/
def collapseWs (s : List Char) : List Char := collapseGo false s

/-- Embedding of `String.prototype.trim`: removes leading and trailing
whitespace. -/
def trimWs (s : List Char) : List Char :=
  List.reverse (List.dropWhile isJsWs (List.reverse (List.dropWhile isJsWs s)))

/-- Digits of a natural number, most significant first, written with a
fuel argument so that the kernel can evaluate it; `natDigits` below
always supplies enough fuel. -/
def natDigitsAux : Nat → Nat → List Char
  | 0, _ => []
  | fuel + 1, n =>
    if n < 10 then [Nat.digitChar n]
    else natDigitsAux fuel (n / 10) ++ [Nat.digitChar (n % 10)]

/-- Decimal digits of a natural number, most significant first. -/
def natDigits (n : Nat) : List Char := natDigitsAux (n + 1) n

/-- Decimal rendering of an integer, as produced by interpolating a
JavaScript number with an integral value into a template string. -/
def intStr (n : Int) : List Char :=
  if n < 0 then '-' :: natDigits n.natAbs else natDigits n.toNat

/-- Two-digit zero-padded decimal field of a UTC date string. -/
def pad2 (n : Nat) : List Char :=
  [Nat.digitChar (n / 10 % 10), Nat.digitChar (n % 10)]

/-- Decimal digits padded with zeros to at least four digits. -/
def pad4 (n : Nat) : List Char :=
  List.replicate (4 - (natDigits n).length) '0' ++ natDigits n

/-- Year field of a UTC date string: at least four digits, with a minus
sign for years before year zero. -/
def yearStr (y : Int) : List Char :=
  if y < 0 then '-' :: pad4 y.natAbs else pad4 y.toNat

/-- Proleptic Gregorian civil date (year, month 1..12, day 1..31) from a
day number counted from 1 January 1970. -/
def civilFromDays (z0 : Int) : Int × Nat × Nat :=
  let z := z0 + 719468
  let era := Int.fdiv z 146097
  let doe := (z - era * 146097).toNat
  let yoe := (doe - doe / 1460 + doe / 36524 - doe / 146096) / 365
  let doy := doe - (365 * yoe + yoe / 4 - yoe / 100)
  let mp := (5 * doy + 2) / 153
  let d := doy - (153 * mp + 2) / 5 + 1
  let m := if mp < 10 then mp + 3 else mp - 9
  ((yoe : Int) + era * 400 + (if m ≤ 2 then 1 else 0), m, d)

/-- Abbreviated weekday names of `Date.prototype.toUTCString`. -/
def weekdayNames : List (List Char) :=
  ["Sun".data, "Mon".data, "Tue".data, "Wed".data, "Thu".data, "Fri".data, "Sat".data]

/-- Abbreviated month names of `Date.prototype.toUTCString`. -/
def monthNames : List (List Char) :=
  ["Jan".data, "Feb".data, "Mar".data, "Apr".data, "May".data, "Jun".data,
   "Jul".data, "Aug".data, "Sep".data, "Oct".data, "Nov".data, "Dec".data]

/-- Weekday name of the instant `ms` (day 0, 1 January 1970, was a
Thursday). -/
def wdName (ms : Int) : List Char :=
  weekdayNames.getD ((Int.emod (Int.fdiv ms 86400000 + 4) 7).toNat) "Sun".data

/-- Month name of the instant `ms`. -/
def moName (ms : Int) : List Char :=
  monthNames.getD ((civilFromDays (Int.fdiv ms 86400000)).2.1 - 1) "Jan".data

/-- Two-digit day of month of the instant `ms`. -/
def dayStr (ms : Int) : List Char :=
  pad2 (civilFromDays (Int.fdiv ms 86400000)).2.2

/-- Year field of the instant `ms`. -/
def yStr (ms : Int) : List Char :=
  yearStr (civilFromDays (Int.fdiv ms 86400000)).1

/-- Two-digit UTC hour of the instant `ms`. -/
def hhStr (ms : Int) : List Char :=
  pad2 ((Int.emod ms 86400000).toNat / 3600000)

/-- Two-digit UTC minute of the instant `ms`. -/
def miStr (ms : Int) : List Char :=
  pad2 ((Int.emod ms 86400000).toNat / 60000 % 60)

/-- Two-digit UTC second of the instant `ms`. -/
def seStr (ms : Int) : List Char :=
  pad2 ((Int.emod ms 86400000).toNat / 1000 % 60)

/-- UTC date string of a valid instant, in the format produced by
`Date.prototype.toUTCString` (RFC 822 / RFC 1123 with a four-digit
year), e.g. "Thu, 01 Jan 1970 00:00:00 GMT". -/
def rfc822UTC (ms : Int) : List Char :=
  wdName ms ++ ", ".data ++ dayStr ms ++ " ".data ++ moName ms ++ " ".data ++
  yStr ms ++ " ".data ++ hhStr ms ++ ":".data ++ miStr ms ++ ":".data ++
  seStr ms ++ " GMT".data

/-- Embedding of `toRfc822` from src/rss.js: `new Date(date).toUTCString()`.
The argument is the instant the input parses to (`none` when the input
does not parse to a valid date, in which case the result is the
"Invalid Date" sentinel string, matching `toUTCString` on an invalid
date). -/
def toRfc822 : Option Int → List Char
  | none => "Invalid Date".data
  | some ms => rfc822UTC ms

/-- Optional numeric engagement fields carried by Twitter items. -/
structure Metadata where
  likes : Option Int
  retweets : Option Int
  replies : Option Int

/-- A feed item as consumed by src/rss.js.  `category` and `content` are
optional strings, `timestamp` is the instant the item's date value
parses to, `metadata` is the optional Twitter engagement record. -/
structure FeedItem where
  id : List Char
  url : List Char
  author : List Char
  source : List Char
  category : Option (List Char)
  content : Option (List Char)
  timestamp : Option Int
  metadata : Option Metadata

/-- Options accepted by `generateRssFeed`; every field is optional. -/
structure FeedOptions where
  title : Option (List Char)
  link : Option (List Char)
  description : Option (List Char)

/-- Embedding of `getItemTitle` from src/rss.js. -/
def getItemTitle (item : FeedItem) : List Char :=
  if isTruthyStr item.content then
    let text := trimWs (collapseWs (item.content.getD []))
    if 80 < text.length then text.take 77 ++ "...".data else text
  else
    item.source ++ " post by ".data ++ item.author

/-- Own-property part of the property read `names[source]` on the object
literal in `getSourceName`: lookup among the keys written in the
literal itself.  The prototype-chain part of a JavaScript property read
is added on top of this by `readProp` below. -/
def lookupList (k : List Char) : List (List Char × List Char) → Option (List Char)
  | [] => none
  | (a, b) :: rest => if a = k then some b else lookupList k rest

/-- String-valued restriction of `getSourceName` from src/rss.js: its
value on source strings that do not collide with a property name
inherited from `Object.prototype`.  The full embedding, prototype chain
included, is `getSourceNameJs` below; `getSourceNameJs_str` shows the
two agree (as string values) away from the inherited names, which is
the regime in which `generateItem` below uses this restriction. -/
def getSourceName (source : List Char) : List Char :=
  let names : List (List Char × List Char) :=
    [("twitter".data, "Twitter/X".data),
     ("reddit".data, "Reddit".data),
     ("github".data, "GitHub".data)]
  match lookupList source names with
  | some n => if n.isEmpty then source else n
  | none => source

/-- A JavaScript value as far as the source-name lookup is concerned: a
string, a truthy non-string value inherited from `Object.prototype`
(a function, or an object for the prototype accessor) identified by the
property name it was read from, or `undefined`. -/
inductive JsValue where
  | str : List Char → JsValue
  | inherited : List Char → JsValue
  | undefVal : JsValue
deriving DecidableEq

/-- The string-keyed properties every object literal inherits from
`Object.prototype`, each bound to a truthy non-string value. -/
def objectProtoKeys : List (List Char) :=
  ["constructor".data, "hasOwnProperty".data, "isPrototypeOf".data,
   "propertyIsEnumerable".data, "toLocaleString".data, "toString".data,
   "valueOf".data, "__defineGetter__".data, "__defineSetter__".data,
   "__lookupGetter__".data, "__lookupSetter__".data, "__proto__".data]

/-- JavaScript truthiness of a `JsValue`: `undefined` is falsy, a string
is falsy exactly when empty, an inherited function or object is truthy. -/
def jsTruthy : JsValue → Bool
  | .str s => !s.isEmpty
  | .inherited _ => true
  | .undefVal => false

/-- Property read on an object literal, prototype chain included: an own
property when the key matches, else the inherited `Object.prototype`
property when the key names one, else `undefined`. -/
def readProp (k : List Char) (own : List (List Char × List Char)) : JsValue :=
  match lookupList k own with
  | some v => .str v
  | none => if k ∈ objectProtoKeys then .inherited k else .undefVal

/-- Full embedding of `getSourceName` from src/rss.js, prototype chain
included: the value of the or-else expression over the property read
`names[source]`. -/
def getSourceNameJs (source : List Char) : JsValue :=
  let names : List (List Char × List Char) :=
    [("twitter".data, "Twitter/X".data),
     ("reddit".data, "Reddit".data),
     ("github".data, "GitHub".data)]
  let v := readProp source names
  if jsTruthy v then v else .str source

/-- `escapeXml` applied to an arbitrary value, as at the source-name use
site in the item template: a falsy value returns the empty string, a
truthy string is escaped, and a truthy non-string value has no
`replace` method, so the call raises a TypeError (modelled as `none`). -/
def escapeXmlVal : JsValue → Option (List Char)
  | .undefVal => some []
  | .str s => some (escapeXml (some s))
  | .inherited _ => none

/-- The Twitter engagement line appended to a description, with 0
substituted for each absent (or otherwise falsy) numeric field. -/
def twitterBlock (md : Metadata) : List Char :=
  "<hr/><p><small>Likes: ".data ++ intStr (md.likes.getD 0) ++
  " | Retweets: ".data ++ intStr (md.retweets.getD 0) ++
  " | Replies: ".data ++ intStr (md.replies.getD 0) ++ "</small></p>".data

/-- Opening of the CDATA description: Author and Source paragraphs. -/
def descPre (item : FeedItem) : List Char :=
  "<![CDATA[<p><strong>Author:</strong> ".data ++ item.author ++
  "</p><p><strong>Source:</strong> ".data ++ getSourceName item.source ++ "</p>".data

/-- The Category paragraph, present only when `item.category` is truthy. -/
def catPart (item : FeedItem) : List Char :=
  if isTruthyStr item.category then
    "<p><strong>Category:</strong> ".data ++ item.category.getD [] ++ "</p>".data
  else []

/-- Horizontal rule and content paragraph of the description. -/
def contentPart (item : FeedItem) : List Char :=
  "<hr/><p>".data ++ item.content.getD [] ++ "</p>".data

/-- The Twitter engagement block, appended only when the item's source is
"twitter" and its metadata is present. -/
def metaPart (item : FeedItem) : List Char :=
  if item.source = "twitter".data then
    match item.metadata with
    | some md => twitterBlock md
    | none => []
  else []

/-- Description of an item up to and including the content paragraph. -/
def descCore (item : FeedItem) : List Char :=
  descPre item ++ catPart item ++ contentPart item

/-- The CDATA description of an item, assembled exactly as the
statement sequence in `generateItem` does. -/
def generateItemDescription (item : FeedItem) : List Char :=
  descPre item ++ catPart item ++ contentPart item ++ metaPart item ++ "]]>".data

/-- The value bound to `category` in `generateItem`: the escaped category
when truthy, otherwise the literal string "uncategorized". -/
def generateItemCategory (item : FeedItem) : List Char :=
  if isTruthyStr item.category then escapeXml item.category
  else "uncategorized".data

/-- Tail of the `<item>` template after the link value. -/
def afterLink (item : FeedItem) : List Char :=
  "</link>\n      <description>".data ++ generateItemDescription item ++
  "</description>\n      <author>".data ++ escapeXml (some item.author) ++
  "</author>\n      <category>".data ++ generateItemCategory item ++
  "</category>\n      <pubDate>".data ++ toRfc822 item.timestamp ++
  "</pubDate>\n      <guid isPermaLink=\"false\">".data ++ escapeXml (some item.id) ++
  "</guid>\n      <source url=\"".data ++ escapeXml (some item.url) ++
  "\">".data ++ escapeXml (some (getSourceName item.source)) ++
  "</source>\n    </item>".data

/-- Embedding of `generateItem` from src/rss.js: the `<item>` template
with every interpolated value. -/
def generateItem (item : FeedItem) : List Char :=
  "    <item>\n      <title>".data ++ escapeXml (some (getItemTitle item)) ++
  "</title>\n      <link>".data ++ escapeXml (some item.url) ++
  afterLink item

/-- Or-else resolution of a feed option: the default is used when the
option is absent or falsy (the empty string). -/
def orDefault (o : Option (List Char)) (d : List Char) : List Char :=
  match o with
  | none => d
  | some s => if s.isEmpty then d else s

/-- Embedding of `Array.prototype.join`: concatenation with a separator
between consecutive elements. -/
def joinSep (sep : List Char) : List (List Char) → List Char
  | [] => []
  | [x] => x
  | x :: y :: xs => x ++ sep ++ joinSep sep (y :: xs)

/-- Channel envelope of the feed document up to and including the
opening of the items region (everything before the joined items). -/
def feedHeader (now : Int) (options : FeedOptions) : List Char :=
  "<?xml version=\"1.0\" encoding=\"UTF-8\"?>\n<rss version=\"2.0\" xmlns:atom=\"http://www.w3.org/2005/Atom\">\n  <channel>\n    <title>".data ++
  escapeXml (some (orDefault options.title "Factory AI Social Feed".data)) ++
  "</title>\n    <link>".data ++
  escapeXml (some (orDefault options.link "https://factory.ai".data)) ++
  "</link>\n    <description>".data ++
  escapeXml (some (orDefault options.description "Aggregated mentions from Twitter, Reddit, and GitHub".data)) ++
  "</description>\n    <language>en-us</language>\n    <lastBuildDate>".data ++
  toRfc822 (some now) ++
  "</lastBuildDate>\n    <generator>Factory AI Feed Scraper</generator>\n    <ttl>10</ttl>\n".data

/-- Closing of the feed document after the joined items. -/
def feedFooter : List Char := "\n  </channel>\n</rss>".data

/-- Embedding of `generateRssFeed` from src/rss.js.  `now` is the instant
read from the clock for `lastBuildDate`. -/
def generateRssFeed (now : Int) (items : List FeedItem) (options : FeedOptions) : List Char :=
  feedHeader now options ++
  joinSep "\n".data (items.map generateItem) ++
  feedFooter

/-- Boolean test that `pat` is an initial segment of `s`. -/
def leadsWith : List Char → List Char → Bool
  | [], _ => true
  | _ :: _, [] => false
  | a :: as, b :: bs => a == b && leadsWith as bs

/-- Boolean test that `pat` occurs contiguously somewhere in `s`. -/
def hasSub (pat : List Char) : List Char → Bool
  | [] => leadsWith pat []
  | c :: cs => leadsWith pat (c :: cs) || hasSub pat cs

/-- The strings `fs` occur, in order and disjointly, inside `s`. -/
def occursInOrder : List (List Char) → List Char → Prop
  | [], _ => True
  | f :: fs, s => ∃ pre post, s = pre ++ f ++ post ∧ occursInOrder fs post

/-- Byte-exact prefix of the empty feed with default options, up to the
interpolated `lastBuildDate` value. -/
def c7Head : List Char :=
  "<?xml version=\"1.0\" encoding=\"UTF-8\"?>\n<rss version=\"2.0\" xmlns:atom=\"http://www.w3.org/2005/Atom\">\n  <channel>\n    <title>Factory AI Social Feed</title>\n    <link>https://factory.ai</link>\n    <description>Aggregated mentions from Twitter, Reddit, and GitHub</description>\n    <language>en-us</language>\n    <lastBuildDate>".data

/-- Byte-exact suffix of the empty feed after the `lastBuildDate` value. -/
def c7Tail : List Char :=
  "</lastBuildDate>\n    <generator>Factory AI Feed Scraper</generator>\n    <ttl>10</ttl>\n\n  </channel>\n</rss>".data

/-- A two-character all-digit field. -/
def twoDigits (l : List Char) : Prop :=
  l.length = 2 ∧ ∀ c ∈ l, c.isDigit = true

/-- Structure of an RFC 822 / RFC 1123 UTC date string as produced by
`toUTCString`: weekday name, comma, two-digit day, month name, year of
at least one digit (possibly signed), and a two-digit HH:MM:SS clock,
ending in " GMT". -/
def isRfc822Shape (s : List Char) : Prop :=
  ∃ w d mo y hh mi se,
    w ∈ weekdayNames ∧ mo ∈ monthNames ∧
    twoDigits d ∧ twoDigits hh ∧ twoDigits mi ∧ twoDigits se ∧
    y ≠ [] ∧ (∀ c ∈ y, c.isDigit = true ∨ c = '-') ∧
    s = w ++ ", ".data ++ d ++ " ".data ++ mo ++ " ".data ++
      y ++ " ".data ++ hh ++ ":".data ++ mi ++ ":".data ++ se ++ " GMT".data

end Rss

namespace Rss

theorem repl_eq_bind (c : Char) (r : List Char) :
    ∀ s : List Char, repl c r s = s.flatMap (fun x => if x = c then r else [x])
  | [] => rfl
  | x :: xs => by
    simp only [repl, List.flatMap_cons]
    rw [repl_eq_bind c r xs]

theorem escapeXml_charwise : ∀ s : List Char, escapeXml (some s) = s.flatMap charEsc := by
  intro s
  rcases s with _ | ⟨x, xs⟩
  · rfl
  · show repl aposChar _ (repl '"' _ (repl '>' _ (repl '<' _ (repl '&' _ (x :: xs))))) = _
    rw [repl_eq_bind, repl_eq_bind, repl_eq_bind, repl_eq_bind, repl_eq_bind]
    rw [List.flatMap_assoc, List.flatMap_assoc, List.flatMap_assoc, List.flatMap_assoc]
    apply List.flatMap_congr
    intro c _
    by_cases h1 : c = '&'
    · subst h1; decide
    · by_cases h2 : c = '<'
      · subst h2; decide
      · by_cases h3 : c = '>'
        · subst h3; decide
        · by_cases h4 : c = '"'
          · subst h4; decide
          · by_cases h5 : c = aposChar
            · subst h5; decide
            · simp [charEsc, h1, h2, h3, h4, h5]

theorem charEsc_of_not_special {c : Char} (h : c ∉ specials) : charEsc c = [c] := by
  simp only [specials, List.mem_cons, List.not_mem_nil, or_false] at h
  push_neg at h
  obtain ⟨h1, h2, h3, h4, h5⟩ := h
  simp [charEsc, h1, h2, h3, h4, h5]

theorem charEsc_length_pos (c : Char) : 1 ≤ (charEsc c).length := by
  by_cases h1 : c = '&'
  · subst h1; decide
  · by_cases h2 : c = '<'
    · subst h2; decide
    · by_cases h3 : c = '>'
      · subst h3; decide
      · by_cases h4 : c = '"'
        · subst h4; decide
        · by_cases h5 : c = aposChar
          · subst h5; decide
          · simp [charEsc, h1, h2, h3, h4, h5]

theorem charEsc_length_big {c : Char} (h : c ∈ specials) : 4 ≤ (charEsc c).length := by
  simp only [specials, List.mem_cons, List.not_mem_nil, or_false] at h
  rcases h with h | h | h | h | h <;> subst h <;> decide

theorem amp_mem_charEsc {c : Char} (h : c ∈ specials) : '&' ∈ charEsc c := by
  simp only [specials, List.mem_cons, List.not_mem_nil, or_false] at h
  rcases h with h | h | h | h | h <;> subst h <;> decide

theorem length_le_bind_charEsc : ∀ s : List Char, s.length ≤ (s.flatMap charEsc).length
  | [] => Nat.le_refl 0
  | x :: xs => by
    simp only [List.flatMap_cons, List.length_append, List.length_cons]
    have h1 := charEsc_length_pos x
    have h2 := length_le_bind_charEsc xs
    omega

theorem length_lt_bind_charEsc :
    ∀ s : List Char, (∃ c ∈ s, c ∈ specials) → s.length < (s.flatMap charEsc).length
  | [], h => by simp at h
  | x :: xs, h => by
    simp only [List.flatMap_cons, List.length_append, List.length_cons]
    by_cases hx : x ∈ specials
    · have h1 := charEsc_length_big hx
      have h2 := length_le_bind_charEsc xs
      omega
    · have hxs : ∃ c ∈ xs, c ∈ specials := by
        rcases h with ⟨c, hc, hcs⟩
        rcases List.mem_cons.mp hc with rfl | hc
        · exact absurd hcs hx
        · exact ⟨c, hc, hcs⟩
      have h1 := charEsc_length_pos x
      have h2 := length_lt_bind_charEsc xs hxs
      omega

theorem bind_charEsc_of_clean :
    ∀ s : List Char, (∀ c ∈ s, c ∉ specials) → s.flatMap charEsc = s
  | [], _ => rfl
  | x :: xs, h => by
    simp only [List.flatMap_cons]
    rw [charEsc_of_not_special (h x (List.mem_cons_self x xs)),
      bind_charEsc_of_clean xs (fun c hc => h c (List.mem_cons_of_mem x hc))]
    rfl

theorem amp_mem_escape {s : List Char} (h : ∃ c ∈ s, c ∈ specials) :
    '&' ∈ escapeXml (some s) := by
  rw [escapeXml_charwise]
  rcases h with ⟨c, hc, hcs⟩
  exact List.mem_flatMap.mpr ⟨c, hc, amp_mem_charEsc hcs⟩

/-- C2: `escapeXml` returns the empty string on every falsy input
(absent value or empty string) without failing, and on any other string
its effect is exactly the per-character map `charEsc`: every occurrence
of each of the five reserved characters is replaced by its entity, in
the source's replacement order whose net effect never double-escapes,
and no other character is altered (a string free of the five reserved
characters is returned unchanged). -/
theorem c2_escapeXml_spec (o : Option (List Char)) :
    (o = none → escapeXml o = []) ∧
    (o = some [] → escapeXml o = []) ∧
    escapeXml o = (o.getD []).flatMap charEsc ∧
    (∀ s, o = some s → (∀ c ∈ s, c ∉ specials) → escapeXml o = s) := by
  refine ⟨?_, ?_, ?_, ?_⟩
  · intro h; subst h; rfl
  · intro h; subst h; rfl
  · cases o with
    | none => rfl
    | some s => simpa using escapeXml_charwise s
  · intro s h hclean
    subst h
    rw [escapeXml_charwise]
    exact bind_charEsc_of_clean s hclean

/-- Witness for C2 at concrete inputs. -/
theorem c2_witness :
    escapeXml none = [] ∧ escapeXml (some "ab".data) = "ab".data :=
  ⟨(c2_escapeXml_spec none).1 rfl,
   (c2_escapeXml_spec (some "ab".data)).2.2.2 "ab".data rfl (by decide)⟩

/-- C5: escaping a string containing a raw ampersand is not idempotent
(the ampersand of an entity is escaped again), a string containing none
of the five reserved characters is left unchanged, and escaping is
idempotent exactly on such clean strings. -/
theorem c5_escape_idempotence (s : List Char) :
    ('&' ∈ s → escapeXml (some (escapeXml (some s))) ≠ escapeXml (some s)) ∧
    ((∀ c ∈ s, c ∉ specials) → escapeXml (some s) = s) ∧
    (escapeXml (some (escapeXml (some s))) = escapeXml (some s) ↔
      ∀ c ∈ s, c ∉ specials) := by
  have hgrow : ∀ t : List Char, (∃ c ∈ t, c ∈ specials) →
      escapeXml (some (escapeXml (some t))) ≠ escapeXml (some t) := by
    intro t ht heq
    have hamp : '&' ∈ escapeXml (some t) := amp_mem_escape ht
    have hlt : (escapeXml (some t)).length <
        (escapeXml (some (escapeXml (some t)))).length := by
      rw [escapeXml_charwise (escapeXml (some t))]
      exact length_lt_bind_charEsc _ ⟨'&', hamp, by decide⟩
    rw [heq] at hlt
    exact Nat.lt_irrefl _ hlt
  refine ⟨?_, ?_, ?_⟩
  · intro h
    exact hgrow s ⟨'&', h, by decide⟩
  · intro h
    rw [escapeXml_charwise]
    exact bind_charEsc_of_clean s h
  · constructor
    · intro heq
      by_contra hnot
      push_neg at hnot
      exact hgrow s hnot heq
    · intro h
      have h1 : escapeXml (some s) = s := by
        rw [escapeXml_charwise]
        exact bind_charEsc_of_clean s h
      rw [h1]
      exact h1

/-- Witness for C5 at a concrete input. -/
theorem c5_witness :
    escapeXml (some (escapeXml (some ['&']))) ≠ escapeXml (some ['&']) :=
  (c5_escape_idempotence ['&']).1 (by decide)

theorem getSourceNameJs_str (s : List Char) (h : s ∉ objectProtoKeys) :
    getSourceNameJs s = JsValue.str (getSourceName s) := by
  simp only [getSourceNameJs, getSourceName, readProp]
  cases hl : lookupList s
      [("twitter".data, "Twitter/X".data),
       ("reddit".data, "Reddit".data),
       ("github".data, "GitHub".data)] with
  | none => simp [h, jsTruthy]
  | some v =>
    by_cases hv : v.isEmpty
    · simp [jsTruthy, hv]
    · simp [jsTruthy, hv]

/-- Counterexample to C3 as stated: the source string "toString" is not
one of the three known identifiers, yet the property read resolves to
the truthy function inherited from `Object.prototype`, so the or-else
expression returns that non-string value rather than the string
unchanged, and the subsequent `escapeXml` call on it raises a
TypeError instead of never failing. -/
theorem c3_counterexample :
    getSourceNameJs "toString".data ≠ JsValue.str "toString".data ∧
    getSourceNameJs "toString".data = JsValue.inherited "toString".data ∧
    escapeXmlVal (getSourceNameJs "toString".data) = none := by
  refine ⟨by decide, by decide, by decide⟩

/-- C3 (amended): for every string distinct from the three known
identifiers that also names no property inherited from
`Object.prototype`, `getSourceName` returns the string unchanged; the
three known identifiers map to their display names; but a string naming
an inherited property (constructor, toString, valueOf, hasOwnProperty,
the proto accessor, ...) resolves to the inherited truthy non-string
value, which is returned instead of the string, and escaping it
raises a TypeError.  Away from the inherited names the full embedding
agrees with the string-valued restriction `getSourceName` used inside
`generateItem`. -/
theorem c3_getSourceName_amended (s : List Char) :
    (s ≠ "twitter".data → s ≠ "reddit".data → s ≠ "github".data →
      s ∉ objectProtoKeys → getSourceNameJs s = JsValue.str s) ∧
    getSourceNameJs "twitter".data = JsValue.str "Twitter/X".data ∧
    getSourceNameJs "reddit".data = JsValue.str "Reddit".data ∧
    getSourceNameJs "github".data = JsValue.str "GitHub".data ∧
    (s ∈ objectProtoKeys →
      getSourceNameJs s = JsValue.inherited s ∧
      escapeXmlVal (getSourceNameJs s) = none) ∧
    (s ∉ objectProtoKeys → getSourceNameJs s = JsValue.str (getSourceName s)) := by
  refine ⟨?_, by decide, by decide, by decide, ?_, getSourceNameJs_str s⟩
  · intro h1 h2 h3 h4
    simp [getSourceNameJs, readProp, lookupList, jsTruthy,
      Ne.symm h1, Ne.symm h2, Ne.symm h3, h4]
  · intro h
    simp only [objectProtoKeys, List.mem_cons, List.not_mem_nil, or_false] at h
    rcases h with rfl | rfl | rfl | rfl | rfl | rfl | rfl | rfl | rfl | rfl | rfl | rfl <;>
      exact ⟨by decide, by decide⟩

/-- Witness for C3 at concrete identifiers: an unknown name passes
through unchanged, an inherited property name does not. -/
theorem c3_witness :
    getSourceNameJs "mastodon".data = JsValue.str "mastodon".data ∧
    getSourceNameJs "__proto__".data = JsValue.inherited "__proto__".data :=
  ⟨(c3_getSourceName_amended "mastodon".data).1
      (by decide) (by decide) (by decide) (by decide),
   ((c3_getSourceName_amended "__proto__".data).2.2.2.2.1 (by decide)).1⟩

theorem collapseGo_true_allWs :
    ∀ s : List Char, (∀ c ∈ s, isJsWs c = true) → collapseGo true s = []
  | [], _ => rfl
  | c :: cs, h => by
    simp only [collapseGo, h c (List.mem_cons_self c cs), if_true]
    exact collapseGo_true_allWs cs (fun x hx => h x (List.mem_cons_of_mem c hx))

theorem collapseGo_true_append :
    ∀ run : List Char, (∀ c ∈ run, isJsWs c = true) →
      ∀ rest, collapseGo true (run ++ rest) = collapseGo true rest
  | [], _, rest => rfl
  | c :: cs, h, rest => by
    simp only [List.cons_append, collapseGo, h c (List.mem_cons_self c cs), if_true]
    exact collapseGo_true_append cs (fun x hx => h x (List.mem_cons_of_mem c hx)) rest

theorem collapseGo_true_eq_false (rest : List Char)
    (h : ∀ c ∈ rest.head?, isJsWs c = false) :
    collapseGo true rest = collapseGo false rest := by
  cases rest with
  | nil => rfl
  | cons c cs =>
    have hc : isJsWs c = false := h c rfl
    simp [collapseGo, hc]

/-- C1: for truthy content, `getItemTitle` collapses whitespace runs to
single spaces, trims, and truncates text longer than 80 characters to
exactly 80 characters (77 plus the three-dot suffix); for absent
content it returns the fallback built from the raw source and author
fields.  The last two conjuncts check the collapsing step against its
description: a whitespace run followed by non-whitespace text becomes
one space, and non-whitespace characters pass through unchanged. -/
theorem c1_getItemTitle_spec (item : FeedItem) :
    (∀ s, item.content = some s → s ≠ [] →
      getItemTitle item =
        (if 80 < (trimWs (collapseWs s)).length
          then (trimWs (collapseWs s)).take 77 ++ "...".data
          else trimWs (collapseWs s)) ∧
      (80 < (trimWs (collapseWs s)).length → (getItemTitle item).length = 80)) ∧
    (item.content = none →
      getItemTitle item = item.source ++ " post by ".data ++ item.author) ∧
    (∀ run rest, run ≠ [] → (∀ c ∈ run, isJsWs c = true) →
      (∀ c ∈ rest.head?, isJsWs c = false) →
      collapseWs (run ++ rest) = ' ' :: collapseWs rest) ∧
    (∀ c rest, isJsWs c = false → collapseWs (c :: rest) = c :: collapseWs rest) := by
  refine ⟨?_, ?_, ?_, ?_⟩
  · intro s hc hne
    have ht : isTruthyStr (some s) = true := by
      cases s with
      | nil => exact absurd rfl hne
      | cons a l => rfl
    have heq : getItemTitle item =
        (if 80 < (trimWs (collapseWs s)).length
          then (trimWs (collapseWs s)).take 77 ++ "...".data
          else trimWs (collapseWs s)) := by
      simp only [getItemTitle, hc, Option.getD_some]
      rw [if_pos ht]
    refine ⟨heq, ?_⟩
    intro hlen
    rw [heq, if_pos hlen, List.length_append, List.length_take,
      Nat.min_eq_left (by omega)]
    rfl
  · intro hc
    have ht : isTruthyStr item.content = false := by rw [hc]; rfl
    simp [getItemTitle, ht]
  · intro run rest hne hws hrest
    cases run with
    | nil => exact absurd rfl hne
    | cons c cs =>
      show collapseGo false (c :: cs ++ rest) = ' ' :: collapseGo false rest
      simp only [List.cons_append, collapseGo,
        hws c (List.mem_cons_self c cs), if_true, Bool.false_eq_true, if_false]
      show ' ' :: collapseGo true (cs ++ rest) = ' ' :: collapseGo false rest
      rw [collapseGo_true_append cs (fun x hx => hws x (List.mem_cons_of_mem c hx)) rest,
        collapseGo_true_eq_false rest hrest]
  · intro c rest hc
    show collapseGo false (c :: rest) = c :: collapseGo false rest
    simp [collapseGo, hc]

/-- Witness for C1 at concrete items. -/
theorem c1_witness :
    getItemTitle ⟨"i".data, "u".data, "a".data, "s".data, none,
      some "hello  world".data, some 0, none⟩ = "hello world".data ∧
    getItemTitle ⟨"i".data, "u".data, "alice".data, "reddit".data, none,
      none, some 0, none⟩ = "reddit post by alice".data := by
  constructor
  · have h := (c1_getItemTitle_spec ⟨"i".data, "u".data, "a".data, "s".data, none,
      some "hello  world".data, some 0, none⟩).1 "hello  world".data rfl (by decide)
    rw [h.1]
    decide
  · have h := (c1_getItemTitle_spec ⟨"i".data, "u".data, "alice".data, "reddit".data,
      none, none, some 0, none⟩).2.1 rfl
    rw [h]
    decide

/-- C10: content consisting only of whitespace is truthy, collapses and
trims to the empty string, so `getItemTitle` returns the empty string
rather than the fallback, and the rendered title element of the item is
empty. -/
theorem c10_whitespace_title (item : FeedItem) (s : List Char)
    (hc : item.content = some s) (hne : s ≠ [])
    (hws : ∀ c ∈ s, isJsWs c = true) :
    getItemTitle item = [] ∧
    ∃ post, generateItem item =
      "    <item>\n      <title></title>\n      <link>".data ++ post := by
  have hcol : collapseWs s = [' '] := by
    cases s with
    | nil => exact absurd rfl hne
    | cons c cs =>
      show collapseGo false (c :: cs) = [' ']
      simp only [collapseGo, hws c (List.mem_cons_self c cs), if_true,
        Bool.false_eq_true, if_false]
      rw [collapseGo_true_allWs cs (fun x hx => hws x (List.mem_cons_of_mem c hx))]
  have ht : isTruthyStr (some s) = true := by
    cases s with
    | nil => exact absurd rfl hne
    | cons a l => rfl
  have htitle : getItemTitle item = [] := by
    simp only [getItemTitle, hc, Option.getD_some]
    rw [if_pos ht, hcol]
    decide
  refine ⟨htitle, ⟨escapeXml (some item.url) ++ afterLink item, ?_⟩⟩
  rw [generateItem, htitle]
  rfl

/-- Witness for C10 at a concrete item. -/
theorem c10_witness :
    getItemTitle ⟨"i".data, "u".data, "a".data, "s".data, none,
      some " ".data, some 0, none⟩ = [] :=
  (c10_whitespace_title ⟨"i".data, "u".data, "a".data, "s".data, none,
    some " ".data, some 0, none⟩ " ".data rfl (by decide) (by decide)).1

/-- C4 (amended): the category field is handled by truthiness, so the
empty string behaves exactly like absence: a falsy category (absent or
empty) renders the literal unescaped string "uncategorized" into the
category element and the description has no Category paragraph, while a
truthy (present, non-empty) category is escaped into the category
element and produces a Category paragraph.  The last conjunct places
the category value inside the rendered item element. -/
theorem c4_category_spec (item : FeedItem) :
    (isTruthyStr item.category = false →
      generateItemCategory item = "uncategorized".data ∧
      generateItemDescription item =
        descPre item ++ (contentPart item ++ metaPart item ++ "]]>".data)) ∧
    (isTruthyStr item.category = true →
      generateItemCategory item = escapeXml item.category ∧
      generateItemDescription item =
        descPre item ++
          ("<p><strong>Category:</strong> ".data ++ item.category.getD [] ++ "</p>".data) ++
          (contentPart item ++ metaPart item ++ "]]>".data)) ∧
    (∃ pre post, generateItem item =
      pre ++ ("<category>".data ++ generateItemCategory item ++ "</category>".data) ++ post) := by
  refine ⟨?_, ?_, ?_⟩
  · intro h
    constructor
    · simp [generateItemCategory, h]
    · simp [generateItemDescription, catPart, h, List.append_assoc]
  · intro h
    constructor
    · simp [generateItemCategory, h]
    · simp [generateItemDescription, catPart, h, List.append_assoc]
  · refine ⟨"    <item>\n      <title>".data ++ escapeXml (some (getItemTitle item)) ++
      "</title>\n      <link>".data ++ escapeXml (some item.url) ++
      "</link>\n      <description>".data ++ generateItemDescription item ++
      "</description>\n      <author>".data ++ escapeXml (some item.author) ++
      "</author>\n      ".data,
      "\n      <pubDate>".data ++ toRfc822 item.timestamp ++
      "</pubDate>\n      <guid isPermaLink=\"false\">".data ++ escapeXml (some item.id) ++
      "</guid>\n      <source url=\"".data ++ escapeXml (some item.url) ++
      "\">".data ++ escapeXml (some (getSourceName item.source)) ++
      "</source>\n    </item>".data, ?_⟩
    simp only [generateItem, afterLink, List.append_assoc]
    rfl

/-- Witness for C4 at concrete items, one per truthiness branch. -/
theorem c4_witness :
    generateItemCategory ⟨"i".data, "u".data, "a".data, "s".data, some "x&y".data,
      none, some 0, none⟩ = "x&amp;y".data ∧
    generateItemCategory ⟨"i".data, "u".data, "a".data, "s".data, none,
      none, some 0, none⟩ = "uncategorized".data := by
  constructor
  · have h := ((c4_category_spec ⟨"i".data, "u".data, "a".data, "s".data,
      some "x&y".data, none, some 0, none⟩).2.1 (by decide)).1
    rw [h]
    decide
  · exact ((c4_category_spec ⟨"i".data, "u".data, "a".data, "s".data, none,
      none, some 0, none⟩).1 (by decide)).1

/-- Counterexample to C4 as stated: an item whose category is present
but equal to the empty string.  The claim says a present category
(including the empty string) is escaped into the category element and
produces a Category paragraph; in fact the rendered element is
"uncategorized" (which differs from the escaped category, the empty
string) and the description contains no Category paragraph. -/
theorem c4_counterexample :
    (⟨"i1".data, "http://u".data, "alice".data, "reddit".data, some [],
      none, some 0, none⟩ : FeedItem).category = some [] ∧
    generateItemCategory ⟨"i1".data, "http://u".data, "alice".data, "reddit".data,
      some [], none, some 0, none⟩ = "uncategorized".data ∧
    generateItemCategory ⟨"i1".data, "http://u".data, "alice".data, "reddit".data,
      some [], none, some 0, none⟩ ≠
      escapeXml (some ([] : List Char)) ∧
    hasSub "<category>uncategorized</category>".data
      (generateItem ⟨"i1".data, "http://u".data, "alice".data, "reddit".data,
        some [], none, some 0, none⟩) = true ∧
    hasSub "Category:".data
      (generateItem ⟨"i1".data, "http://u".data, "alice".data, "reddit".data,
        some [], none, some 0, none⟩) = false := by
  refine ⟨rfl, by decide, by decide, by decide, by decide⟩

/-- C8: the CDATA description ends with the Twitter engagement block,
immediately before the CDATA terminator, precisely when the item's
source is "twitter" and its metadata is present; the block substitutes
0 for each absent numeric field, as the concrete example with only
likes present shows. -/
theorem c8_twitter_metadata (item : FeedItem) :
    (∀ md, item.source = "twitter".data → item.metadata = some md →
      generateItemDescription item = descCore item ++ twitterBlock md ++ "]]>".data) ∧
    (item.source ≠ "twitter".data ∨ item.metadata = none →
      generateItemDescription item = descCore item ++ "]]>".data) ∧
    twitterBlock ⟨some 5, none, none⟩ =
      "<hr/><p><small>Likes: 5 | Retweets: 0 | Replies: 0</small></p>".data := by
  refine ⟨?_, ?_, by decide⟩
  · intro md h1 h2
    simp [generateItemDescription, descCore, metaPart, h1, h2, List.append_assoc]
  · intro h
    have hm : metaPart item = [] := by
      by_cases hs : item.source = "twitter".data
      · rcases h with h | h
        · exact absurd hs h
        · simp [metaPart, hs, h]
      · simp [metaPart, hs]
    simp [generateItemDescription, descCore, hm, List.append_assoc]

/-- Witness for C8 at a concrete Twitter item carrying only likes. -/
theorem c8_witness :
    generateItemDescription ⟨"i".data, "u".data, "a".data, "twitter".data, none,
      none, some 0, some ⟨some 5, none, none⟩⟩ =
      descCore ⟨"i".data, "u".data, "a".data, "twitter".data, none,
        none, some 0, some ⟨some 5, none, none⟩⟩ ++
      twitterBlock ⟨some 5, none, none⟩ ++ "]]>".data :=
  (c8_twitter_metadata ⟨"i".data, "u".data, "a".data, "twitter".data, none,
    none, some 0, some ⟨some 5, none, none⟩⟩).1 ⟨some 5, none, none⟩ rfl rfl

theorem getD_mem_or {α : Type} :
    ∀ (l : List α) (n : Nat) (d : α), l.getD n d ∈ l ∨ l.getD n d = d
  | [], _, _ => Or.inr rfl
  | a :: _, 0, _ => Or.inl (by simp)
  | a :: l, n + 1, d => by
    rw [List.getD_cons_succ]
    rcases getD_mem_or l n d with h | h
    · exact Or.inl (List.mem_cons_of_mem a h)
    · exact Or.inr h

theorem digitChar_lt10 : ∀ k, k < 10 → (Nat.digitChar k).isDigit = true := by decide

theorem pad2_twoDigits (n : Nat) : twoDigits (pad2 n) := by
  refine ⟨rfl, ?_⟩
  intro c hc
  rcases List.mem_cons.mp hc with rfl | hc
  · exact digitChar_lt10 _ (Nat.mod_lt _ (by norm_num))
  · rcases List.mem_cons.mp hc with rfl | hc
    · exact digitChar_lt10 _ (Nat.mod_lt _ (by norm_num))
    · simp at hc

theorem natDigitsAux_digits :
    ∀ (fuel n : Nat), ∀ c ∈ natDigitsAux fuel n, c.isDigit = true
  | 0, n => by intro c hc; simp [natDigitsAux] at hc
  | fuel + 1, n => by
    intro c hc
    by_cases h : n < 10
    · simp only [natDigitsAux, if_pos h, List.mem_singleton] at hc
      subst hc
      exact digitChar_lt10 n h
    · simp only [natDigitsAux, if_neg h, List.mem_append, List.mem_singleton] at hc
      rcases hc with hc | hc
      · exact natDigitsAux_digits fuel (n / 10) c hc
      · subst hc
        exact digitChar_lt10 _ (Nat.mod_lt _ (by norm_num))

theorem natDigits_ne_nil (n : Nat) : natDigits n ≠ [] := by
  show natDigitsAux (n + 1) n ≠ []
  by_cases h : n < 10 <;> simp [natDigitsAux, h]

theorem pad4_digits (n : Nat) : ∀ c ∈ pad4 n, c.isDigit = true := by
  intro c hc
  rcases List.mem_append.mp hc with hc | hc
  · rw [List.eq_of_mem_replicate hc]; rfl
  · exact natDigitsAux_digits _ _ c hc

theorem pad4_ne_nil (n : Nat) : pad4 n ≠ [] := by
  simp [pad4, natDigits_ne_nil n]

theorem yearStr_ne_nil (y : Int) : yearStr y ≠ [] := by
  unfold yearStr
  by_cases h : y < 0
  · simp [h]
  · simp [h, pad4_ne_nil]

theorem yearStr_chars (y : Int) : ∀ c ∈ yearStr y, c.isDigit = true ∨ c = '-' := by
  intro c hc
  unfold yearStr at hc
  by_cases h : y < 0
  · rw [if_pos h] at hc
    rcases List.mem_cons.mp hc with rfl | hc
    · exact Or.inr rfl
    · exact Or.inl (pad4_digits _ c hc)
  · rw [if_neg h] at hc
    exact Or.inl (pad4_digits _ c hc)

theorem wdName_mem (ms : Int) : wdName ms ∈ weekdayNames := by
  unfold wdName
  rcases getD_mem_or weekdayNames
    ((Int.emod (Int.fdiv ms 86400000 + 4) 7).toNat) "Sun".data with h | h
  · exact h
  · rw [h]; decide

theorem moName_mem (ms : Int) : moName ms ∈ monthNames := by
  unfold moName
  rcases getD_mem_or monthNames
    ((civilFromDays (Int.fdiv ms 86400000)).2.1 - 1) "Jan".data with h | h
  · exact h
  · rw [h]; decide

/-- C6: `toRfc822` is total; an invalid date yields the sentinel string
"Invalid Date" rather than failing, and every valid instant yields a
string in the RFC 822 / RFC 1123 UTC form (weekday name, two-digit day,
month name, year, two-digit HH:MM:SS, "GMT" zone). -/
theorem c6_toRfc822_total (dt : Option Int) :
    (dt = none → toRfc822 dt = "Invalid Date".data) ∧
    (∀ ms, dt = some ms → isRfc822Shape (toRfc822 dt)) := by
  constructor
  · intro h; subst h; rfl
  · intro ms h; subst h
    show isRfc822Shape (rfc822UTC ms)
    exact ⟨wdName ms, dayStr ms, moName ms, yStr ms, hhStr ms, miStr ms, seStr ms,
      wdName_mem ms, moName_mem ms,
      pad2_twoDigits _, pad2_twoDigits _, pad2_twoDigits _, pad2_twoDigits _,
      yearStr_ne_nil _, yearStr_chars _, rfl⟩

/-- Witness for C6 at concrete inputs, one per branch. -/
theorem c6_witness :
    toRfc822 none = "Invalid Date".data ∧ isRfc822Shape (toRfc822 (some 0)) :=
  ⟨(c6_toRfc822_total none).1 rfl, (c6_toRfc822_total (some 0)).2 0 rfl⟩

theorem orDefault_falsy {o : Option (List Char)} (d : List Char)
    (h : isTruthyStr o = false) : orDefault o d = d := by
  cases o with
  | none => rfl
  | some s =>
    have hs : s.isEmpty = true := by
      simpa [isTruthyStr] using h
    simp [orDefault, hs]

theorem orDefault_self (d : List Char) : orDefault (some d) d = d := by
  by_cases h : d.isEmpty <;> simp [orDefault, h]

/-- C7: the empty feed with empty options is byte-exact: the documented
envelope, with the three defaults baked in, surrounding the
interpolated build date, and with zero item fragments; moreover each of
the three options falls back to its default exactly when the supplied
value is absent or falsy. -/
theorem c7_feed_envelope (now : Int) (opts : FeedOptions) :
    generateRssFeed now [] ⟨none, none, none⟩ =
      c7Head ++ toRfc822 (some now) ++ c7Tail ∧
    (isTruthyStr opts.title = false → ∀ items,
      generateRssFeed now items opts =
        generateRssFeed now items
          ⟨some "Factory AI Social Feed".data, opts.link, opts.description⟩) ∧
    (isTruthyStr opts.link = false → ∀ items,
      generateRssFeed now items opts =
        generateRssFeed now items
          ⟨opts.title, some "https://factory.ai".data, opts.description⟩) ∧
    (isTruthyStr opts.description = false → ∀ items,
      generateRssFeed now items opts =
        generateRssFeed now items
          ⟨opts.title, opts.link,
            some "Aggregated mentions from Twitter, Reddit, and GitHub".data⟩) := by
  have e1 : escapeXml (some (orDefault none "Factory AI Social Feed".data)) =
      "Factory AI Social Feed".data := by decide
  have e2 : escapeXml (some (orDefault none "https://factory.ai".data)) =
      "https://factory.ai".data := by decide
  have e3 : escapeXml (some (orDefault none
      "Aggregated mentions from Twitter, Reddit, and GitHub".data)) =
      "Aggregated mentions from Twitter, Reddit, and GitHub".data := by decide
  refine ⟨?_, ?_, ?_, ?_⟩
  · simp only [generateRssFeed, feedHeader, feedFooter, List.map_nil, joinSep,
      e1, e2, e3, c7Head, c7Tail, List.append_assoc, List.append_nil, List.nil_append]
    rfl
  · intro h items
    simp only [generateRssFeed, feedHeader, orDefault_falsy _ h, orDefault_self]
  · intro h items
    simp only [generateRssFeed, feedHeader, orDefault_falsy _ h, orDefault_self]
  · intro h items
    simp only [generateRssFeed, feedHeader, orDefault_falsy _ h, orDefault_self]

/-- Witness for C7 at concrete inputs. -/
theorem c7_witness :
    generateRssFeed 0 [] ⟨none, none, none⟩ =
      generateRssFeed 0 [] ⟨some "Factory AI Social Feed".data, none, none⟩ :=
  (c7_feed_envelope 0 ⟨none, none, none⟩).2.1 rfl []

theorem occursInOrder_append_left :
    ∀ (fs : List (List Char)) (a s : List Char),
      occursInOrder fs s → occursInOrder fs (a ++ s)
  | [], _, _, _ => trivial
  | f :: fs, a, s, ⟨pre, post, heq, hrec⟩ =>
    ⟨a ++ pre, post, by rw [heq]; simp [List.append_assoc], hrec⟩

theorem occursInOrder_append_right :
    ∀ (fs : List (List Char)) (s b : List Char),
      occursInOrder fs s → occursInOrder fs (s ++ b)
  | [], _, _, _ => trivial
  | f :: fs, s, b, ⟨pre, post, heq, hrec⟩ =>
    ⟨pre, post ++ b, by rw [heq]; simp [List.append_assoc],
      occursInOrder_append_right fs post b hrec⟩

theorem occursInOrder_joinSep (sep : List Char) :
    ∀ fs, occursInOrder fs (joinSep sep fs)
  | [] => trivial
  | [x] => ⟨[], [], by simp [joinSep], trivial⟩
  | x :: y :: fs => by
    refine ⟨[], sep ++ joinSep sep (y :: fs), ?_, ?_⟩
    · simp [joinSep, List.append_assoc]
    · exact occursInOrder_append_left _ sep _ (occursInOrder_joinSep sep (y :: fs))

/-- C9: the feed is the envelope around the item fragments, each item
rendered by `generateItem`, joined by a single newline; the fragments
occur in the output contiguously, disjointly and in exactly the input
order (no sorting, deduplication or filtering). -/
theorem c9_item_order (now : Int) (items : List FeedItem) (opts : FeedOptions) :
    generateRssFeed now items opts =
      feedHeader now opts ++ joinSep "\n".data (items.map generateItem) ++ feedFooter ∧
    occursInOrder (items.map generateItem) (generateRssFeed now items opts) ∧
    (∀ a b : List Char, joinSep "\n".data [a, b] = a ++ "\n".data ++ b) := by
  refine ⟨rfl, ?_, fun a b => rfl⟩
  have h1 := occursInOrder_joinSep "\n".data (items.map generateItem)
  have h2 := occursInOrder_append_right _ _ feedFooter h1
  have h3 := occursInOrder_append_left _ (feedHeader now opts) _ h2
  show occursInOrder _
    (feedHeader now opts ++ joinSep "\n".data (items.map generateItem) ++ feedFooter)
  rw [List.append_assoc]
  exact h3

end Rss
